import Mathlib

/-!
Verification development for the dividend-analytics pipeline of
`SL08_ShareMonitoring` (`dividend.py`).

The pipeline is shallowly embedded over lists of records.  Conventions:

* A pandas `Timestamp` is modelled by `Date`: `days` is the absolute day
  index used for ordering and window arithmetic (`timedelta(days=365)`
  becomes `days - 365`), `year` is the calendar year attribute (`.dt.year`).
* Per-share amounts and prices are `ℚ`; a possibly-NA column entry is
  `Option ℚ` (`none` = `pd.NA`/`NaN`).
* The two genuinely irrational operations of the source — `** (1/n)` in
  `cagr_metrics` and the square root inside pandas' `std` — are taken as
  function parameters (`rpowFn`, `sqrtFn`), so every definition stays
  executable; theorems instantiate them with `Real.rpow` / `Real.sqrt`.
* The scoring and persona stages are generic over a linear ordered field
  `α`, matching the fact that the source code is the same arithmetic
  whatever numeric values flow in; the real pipeline instantiates `α := ℝ`.
* `pct_change` over a zero previous value produces a non-finite float
  (`inf` / `NaN`) in pandas, which no later comparison `< 0` treats as a
  cut; we model that case as `none` (undefined), which has the same
  downstream behaviour for every property considered here.
-/

/-- A calendar date: `days` is an absolute day index (used for ordering and
day arithmetic), `year` the calendar-year attribute of the timestamp. -/
structure Date where
  days : ℤ
  year : ℤ
deriving DecidableEq, Repr

/-- A row of the event dataframe produced by `build_dividend_dataset`:
columns `Company`, `Ticker`, `Date`, `Dividend`. -/
structure EventRow where
  company : String
  ticker : String
  date : Date
  dividend : ℚ
deriving DecidableEq, Repr

/-- A row of the table produced by `annual_dividends`: columns `Company`,
`Ticker`, `Year`, `AnnualDividend`, `YoY_Growth`. -/
structure AnnualRow where
  company : String
  ticker : String
  year : ℤ
  annualDividend : ℚ
  yoy : Option ℚ
deriving DecidableEq, Repr

/-- Ordering used by `sort_values(["Company", "Date"])`. -/
def eventLE (a b : EventRow) : Prop :=
  a.company < b.company ∨ (a.company = b.company ∧ a.date.days ≤ b.date.days)

instance : DecidableRel eventLE := fun a b => by
  unfold eventLE; infer_instance

/-- `build_dividend_dataset`: fetch each selected company's dividend events
(skipping companies with no ticker and companies whose fetch is empty), tag
the rows with company and ticker, keep only events whose date lies in the
inclusive `[start_dt, end_dt]` window, and sort by `(Company, Date)`. -/
def build_dividend_dataset (tickerOf : String → Option String)
    (fetchDiv : String → List (Date × ℚ))
    (selected : List String) (startD endD : Date) : List EventRow :=
  let rows := selected.flatMap (fun comp =>
    match tickerOf comp with
    | none => []
    | some t =>
      let evs := fetchDiv t
      if evs = [] then []
      else evs.map (fun e => { company := comp, ticker := t, date := e.1, dividend := e.2 }))
  let filtered := rows.filter
    (fun r => startD.days ≤ r.date.days ∧ r.date.days ≤ endD.days)
  List.insertionSort eventLE filtered

/-- The distinct `(Company, Ticker)` group keys of an event dataframe, in
first-appearance order. -/
def keysOf (df : List EventRow) : List (String × String) :=
  (df.map (fun r => (r.company, r.ticker))).dedup

/-- `pct_change` between a previous and a current value.  pandas yields a
non-finite float when the previous value is zero; that case is modelled as
undefined (see the header comment). -/
def pctChange (prev cur : ℚ) : Option ℚ :=
  if prev = 0 then none else some ((cur - prev) / prev)

/-- Attach the `YoY_Growth` column to a year-sorted list of
`(Year, AnnualDividend)` pairs of one `(Company, Ticker)` group, threading
the previous annual amount exactly as `groupby("Company").pct_change` does. -/
def attachYoY (c t : String) (prev : Option ℚ) : List (ℤ × ℚ) → List AnnualRow
  | [] => []
  | (y, a) :: rest =>
    { company := c, ticker := t, year := y, annualDividend := a,
      yoy := prev.bind (fun p => pctChange p a) } :: attachYoY c t (some a) rest

/-- The year-sorted `(Year, AnnualDividend)` pairs of one group: distinct
years of the group's events, each with the summed dividend of that year. -/
def annualBase (df : List EventRow) (c t : String) : List (ℤ × ℚ) :=
  let rows := df.filter (fun r => r.company = c ∧ r.ticker = t)
  let years := List.insertionSort (· ≤ ·) (rows.map (fun r => r.date.year)).dedup
  years.map (fun y =>
    (y, ((rows.filter (fun r => r.date.year = y)).map (fun r => r.dividend)).sum))

/-- One `(Company, Ticker)` group of the `annual_dividends` table: the
year-sorted annual sums of that key with the `pct_change` column. -/
def annualGroup (df : List EventRow) (c t : String) : List AnnualRow :=
  attachYoY c t none (annualBase df c t)

/-- `annual_dividends`: group the events by `(Company, Ticker, Year)`, sum
the `Dividend` column within each group, sort by `(Company, Year)`, and add
the per-company `pct_change` column `YoY_Growth`. -/
def annual_dividends (df : List EventRow) : List AnnualRow :=
  (keysOf df).flatMap (fun k => annualGroup df k.1 k.2)

/-- C4 counterexample: a company paying in 2020 and 2022 but not 2021.  The
claim says the 2022 growth must be undefined (no record for the immediately
preceding calendar year 2021); `pct_change` instead computes it against the
previous record of the series (2020), giving `2/1 - 1 = 1`. -/
theorem yoy_gap_year_counterexample :
    annual_dividends
      [{ company := "A", ticker := "T", date := ⟨10, 2020⟩, dividend := 1 },
       { company := "A", ticker := "T", date := ⟨800, 2022⟩, dividend := 2 }] =
      [{ company := "A", ticker := "T", year := 2020, annualDividend := 1, yoy := none },
       { company := "A", ticker := "T", year := 2022, annualDividend := 2, yoy := some 1 }] ∧
    some (1 : ℚ) ≠ none := by
  refine ⟨?_, by simp⟩
  norm_num [annual_dividends, annualGroup, keysOf, annualBase, attachYoY, pctChange,
    List.insertionSort, List.orderedInsert, List.dedup, List.filter, List.flatMap]

/-- A row of the table produced by `consistency_metrics`. -/
structure ConsRow where
  company : String
  ticker : String
  payments : ℕ
  yearsPaid : Option ℕ
  yearsObserved : Option ℤ
  coverage : Option ℚ
  longestStreak : Option ℕ
  paymentsPerYear : Option ℚ
deriving DecidableEq, Repr

/-- `max year - min year + 1` of a list of years, `none` for the empty list. -/
def yearSpan : List ℤ → Option ℤ
  | [] => none
  | y :: ys => some (ys.foldl max y - ys.foldl min y + 1)

/-- The loop of the longest-streak computation: `prev` is the previous year,
`cur` the running streak, `best` the best completed streak. -/
def streakGo (prev : ℤ) (cur best : ℕ) : List ℤ → ℕ
  | [] => max best cur
  | y :: ys => if y = prev + 1 then streakGo y (cur + 1) best ys
               else streakGo y 1 (max best cur) ys

/-- Longest run of strictly consecutive integers in a sorted list of years
(the source iterates over `sorted(g["Year"].unique())`). -/
def longestStreakOf : List ℤ → ℕ
  | [] => 0
  | y :: ys => streakGo y 1 0 ys

/-- The row of `consistency_metrics` for one `(Company, Ticker)` key, in
the branch where the annual table is non-empty. -/
def consRowFor (df : List EventRow) (annual : List AnnualRow) (k : String × String) : ConsRow :=
  let grp := df.filter (fun r => r.company = k.1 ∧ r.ticker = k.2)
  let dfYears := (grp.map (fun r => r.date.year)).dedup
  let ppy : Option ℚ :=
    if dfYears.length = 0 then none else some ((grp.length : ℚ) / (dfYears.length : ℚ))
  match (annual.filter (fun a => a.company = k.1 ∧ a.ticker = k.2)).map (fun a => a.year) with
  | [] => ⟨k.1, k.2, grp.length, none, none, none, none, ppy⟩
  | y :: ys =>
    let yp := (y :: ys).dedup.length
    let yo := ys.foldl max y - ys.foldl min y + 1
    ⟨k.1, k.2, grp.length, some yp, some yo, some ((yp : ℚ) / (yo : ℚ)),
      some (longestStreakOf (List.insertionSort (· ≤ ·) (y :: ys).dedup)), ppy⟩

/-- `consistency_metrics`: one row per `(Company, Ticker)` key of the event
dataframe; event count, distinct years paid, observed year span
(`LastYear - FirstYear + 1` over the `annual` argument's years for that
key), coverage `YearsPaid / YearsObserved`, longest streak of consecutive
years, and mean payments per year (from the event dataframe).  Keys absent
from `annual` get `NA` in all annual-derived columns (left merge); if
`annual` is empty the source returns the early all-`NA` merge, which also
leaves `PaymentsPerYear` undefined. -/
def consistency_metrics (df : List EventRow) (annual : List AnnualRow) : List ConsRow :=
  if annual = [] then
    (keysOf df).map (fun k =>
      let grp := df.filter (fun r => r.company = k.1 ∧ r.ticker = k.2)
      ⟨k.1, k.2, grp.length, none, none, none, none, none⟩)
  else
    (keysOf df).map (consRowFor df annual)

/-- A row of the table produced by `volatility_metrics`; the standard
deviation and the coefficient of variation live in the score field `α`
because they involve a square root. -/
structure VolRow (α : Type) where
  company : String
  ticker : String
  annualMean : ℚ
  annualStd : Option α
  cv : Option α
  cuts : ℕ

/-- The distinct `(Company, Ticker)` group keys of an annual table. -/
def annualKeysOf (annual : List AnnualRow) : List (String × String) :=
  (annual.map (fun r => (r.company, r.ticker))).dedup

/-- Unbiased sample variance (pandas `std` squares to this, `ddof = 1`). -/
def sampleVar (xs : List ℚ) : ℚ :=
  let m := xs.sum / (xs.length : ℚ)
  ((xs.map (fun x => (x - m) ^ 2)).sum) / ((xs.length : ℚ) - 1)

/-- `volatility_metrics`: per `(Company, Ticker)` group of the annual table,
the mean annual amount, the sample standard deviation (`NaN`, i.e. `none`,
for groups of fewer than two rows, pandas `ddof = 1`), the coefficient of
variation `std / mean` (undefined when `std` is, or non-finite — modelled
`none` — when the mean is zero), and the number of cuts: rows whose
`YoY_Growth` is a defined value strictly below zero. -/
def volatility_metrics {α : Type} [LinearOrderedField α] (sqrtFn : ℚ → α)
    (annual : List AnnualRow) : List (VolRow α) :=
  (annualKeysOf annual).map (fun k =>
    let g := annual.filter (fun a => a.company = k.1 ∧ a.ticker = k.2)
    let amts := g.map (fun a => a.annualDividend)
    let mean := amts.sum / (amts.length : ℚ)
    let std : Option α := if 2 ≤ amts.length then some (sqrtFn (sampleVar amts)) else none
    let cv : Option α := std.bind (fun s => if mean = 0 then none else some (s / (mean : α)))
    let cuts := (g.filter (fun a =>
      match a.yoy with | some v => decide (v < 0) | none => false)).length
    ⟨k.1, k.2, mean, std, cv, cuts⟩)

/-- A row of the table produced by `cagr_metrics`. -/
structure CagrRow (α : Type) where
  company : String
  ticker : String
  divCAGR : Option α

/-- Ordering used by `sort_values("Year")` inside `cagr_metrics`. -/
def yearLE (a b : ℤ × ℚ) : Prop := a.1 ≤ b.1

instance : DecidableRel yearLE := fun a b => by
  unfold yearLE; infer_instance

/-- The per-group CAGR computation of `cagr_metrics`: sort by year, keep
strictly positive annual amounts, and unless fewer than two such rows
remain or the year span `n` is non-positive (or the first amount is
non-positive, which the preceding filter already rules out), return
`(last / first) ** (1 / n) - 1`, with `** (1 / n)` supplied as `rpowFn`. -/
def cagrGroup {α : Type} [LinearOrderedField α] (rpowFn : ℚ → ℤ → α)
    (g : List (ℤ × ℚ)) : Option α :=
  let gg := (List.insertionSort yearLE g).filter (fun p => 0 < p.2)
  match gg with
  | [] => none
  | [_] => none
  | p0 :: p1 :: rest =>
    let pl := (p1 :: rest).getLast (List.cons_ne_nil _ _)
    let n := pl.1 - p0.1
    if n ≤ 0 ∨ p0.2 ≤ 0 then none
    else some (rpowFn (pl.2 / p0.2) n - 1)

/-- `cagr_metrics`: one row per `(Company, Ticker)` group of the annual
table, carrying that group's `cagrGroup` value. -/
def cagr_metrics {α : Type} [LinearOrderedField α] (rpowFn : ℚ → ℤ → α)
    (annual : List AnnualRow) : List (CagrRow α) :=
  (annualKeysOf annual).map (fun k =>
    ⟨k.1, k.2, cagrGroup rpowFn
      ((annual.filter (fun a => a.company = k.1 ∧ a.ticker = k.2)).map
        (fun a => (a.year, a.annualDividend)))⟩)

/-- A row of the table produced by `yield_metrics`. -/
structure YieldRow where
  company : String
  ticker : String
  ttmDividend : Option ℚ
  ttmYield : Option ℚ
  periodYield : Option ℚ
deriving DecidableEq, Repr

/-- `avg_price`: mean of the chosen price column, `NA` when no rows. -/
def avgPrice (p : List ℚ) : Option ℚ :=
  if p = [] then none else some (p.sum / (p.length : ℚ))

/-- The summed dividend of the trailing-365-day window `[end - 365, end]`
over a ticker's full dividend history. -/
def ttmWindowSum (fetchDiv : String → List (Date × ℚ)) (tic : String) (endD : Date) : ℚ :=
  (((fetchDiv tic).filter
    (fun e => endD.days - 365 ≤ e.1.days ∧ e.1.days ≤ endD.days)).map (fun e => e.2)).sum

/-- The summed dividend of one company over the (already window-filtered)
event dataframe. -/
def periodSum (dfEvents : List EventRow) (comp : String) : ℚ :=
  ((dfEvents.filter (fun r => r.company = comp)).map (fun r => r.dividend)).sum

/-- `yield_metrics`: for each selected company with a ticker, if the full
dividend history is empty produce an all-`NA` row; otherwise sum the
dividends inside the trailing-365-day window `[end - 365, end]` and inside
the already-filtered event dataframe (the user period), average the price
series of each window, and set each yield to `sum / avg` when the average
price is defined and non-zero, `NA` otherwise.  The displayed TTM dividend
is replaced by `NA` when the TTM sum is exactly zero — the yields are not. -/
def yield_metrics (tickerOf : String → Option String)
    (fetchDiv : String → List (Date × ℚ))
    (fetchPrice : String → ℤ → ℤ → List ℚ)
    (selected : List String) (startD endD : Date)
    (dfEvents : List EventRow) : List YieldRow :=
  let ttmStart : ℤ := endD.days - 365
  selected.filterMap (fun comp =>
    match tickerOf comp with
    | none => none
    | some tic =>
      if fetchDiv tic = [] then
        some ⟨comp, tic, none, none, none⟩
      else
        let ttmDiv := ttmWindowSum fetchDiv tic endD
        let periodDiv := periodSum dfEvents comp
        let avgTtm := avgPrice (fetchPrice tic ttmStart endD.days)
        let avgPeriod := avgPrice (fetchPrice tic startD.days endD.days)
        let ttmYield := avgTtm.bind (fun a => if a = 0 then none else some (ttmDiv / a))
        let periodYield := avgPeriod.bind (fun a => if a = 0 then none else some (periodDiv / a))
        some ⟨comp, tic, if ttmDiv = 0 then none else some ttmDiv, ttmYield, periodYield⟩)

/-- The merged master metrics table: one row per `consistency_metrics` row
(pandas left merges on `(Company, Ticker)`), with the volatility, CAGR and
yield columns looked up by key (`NA` when the key is absent).  Rational
columns are cast into the score field `α`; columns not consumed by the
scorer or classifier are not carried. -/
structure MetricRow (α : Type) where
  company : String
  ticker : String
  coverage : Option α
  longestStreak : Option α
  cv : Option α
  cuts : Option α
  divCAGR : Option α
  ttmYield : Option α
  periodYield : Option α

/-- The three left merges building the master metrics table
(`cons.merge(vol).merge(cagr).merge(yld)` on `(Company, Ticker)`). -/
def mergeMetrics {α : Type} [LinearOrderedField α] (cons : List ConsRow)
    (vol : List (VolRow α)) (cagr : List (CagrRow α)) (yld : List YieldRow) :
    List (MetricRow α) :=
  cons.map (fun c =>
    let v := vol.find? (fun v => v.company == c.company && v.ticker == c.ticker)
    let g := cagr.find? (fun g => g.company == c.company && g.ticker == c.ticker)
    let y := yld.find? (fun y => y.company == c.company && y.ticker == c.ticker)
    { company := c.company, ticker := c.ticker,
      coverage := c.coverage.map (fun q => (q : α)),
      longestStreak := c.longestStreak.map (fun n => (n : α)),
      cv := v.bind (fun v => v.cv),
      cuts := v.map (fun v => (v.cuts : α)),
      divCAGR := g.bind (fun g => g.divCAGR),
      ttmYield := (y.bind (fun y => y.ttmYield)).map (fun q => (q : α)),
      periodYield := (y.bind (fun y => y.periodYield)).map (fun q => (q : α)) })

/-- `_clamp01`. -/
def clamp01 {α : Type} [LinearOrderedField α] (x : α) : α := max 0 (min 1 x)

/-- Row-wise `mean(axis=1, skipna=True)` over two columns: mean of the
defined entries, `NA` when both are `NA`. -/
def meanO {α : Type} [LinearOrderedField α] : Option α → Option α → Option α
  | some x, some y => some ((x + y) / 2)
  | some x, none => some x
  | none, some y => some y
  | none, none => none

/-- A scored row: the metric columns plus the normalized sub-scores and the
composite `DividendScore` added by `dividend_score`. -/
structure ScoredRow (α : Type) extends MetricRow α where
  consCoverage : Option α
  consStreak : Option α
  consistency : Option α
  growth : Option α
  yieldScore : Option α
  stabilityCv : Option α
  stabilityCuts : Option α
  stability : Option α
  dividendScore : α

/-- `df["cons_streak"].max()`: maximum of the defined streak entries of the
comparison set, `NA` when none is defined. -/
def maxStreakCol {α : Type} [LinearOrderedField α] (rows : List (MetricRow α)) : Option α :=
  rows.foldr (fun r acc =>
    match r.longestStreak, acc with
    | none, a => a
    | some x, none => some x
    | some x, some m => some (max x m)) none

/-- The per-row body of `dividend_score`, given the column maximum `mx` of
the streaks.  `norm_cuts` applies Python `int()` to its argument, which is
the identity on the integer-valued `Cuts` column and is therefore omitted. -/
def scoreRow {α : Type} [LinearOrderedField α] (mx : Option α) (r : MetricRow α) :
    ScoredRow α :=
  let consCoverage := r.coverage.map clamp01
  let consStreak : Option α :=
    match r.longestStreak, mx with
    | some x, some m => if 0 < m then some (x / m) else none
    | _, _ => none
  let consistency := meanO consCoverage consStreak
  let growth := r.divCAGR.map (fun x => max (-(1/2)) (min (1/2) x) + 1/2)
  let yieldScore := r.ttmYield.map (fun x => max 0 (min (1/10) x) / (1/10))
  let stabilityCv := r.cv.map (fun x => 1 - max 0 (min 2 x) / 2)
  let stabilityCuts := r.cuts.map (fun x => 1 - max 0 (min 4 x) / 4)
  let stability := meanO stabilityCv stabilityCuts
  { toMetricRow := r,
    consCoverage := consCoverage,
    consStreak := consStreak,
    consistency := consistency,
    growth := growth,
    yieldScore := yieldScore,
    stabilityCv := stabilityCv,
    stabilityCuts := stabilityCuts,
    stability := stability,
    dividendScore :=
      (2/5 * consistency.getD 0 + 1/4 * growth.getD 0 + 1/5 * yieldScore.getD 0
        + 3/20 * stability.getD 0) * 100 }

/-- `dividend_score`: normalize each component onto `[0, 1]` (undefined
entries stay undefined) and combine them into the weighted 0-100 composite,
defaulting undefined sub-scores to 0 inside the weighted sum only. -/
def dividend_score {α : Type} [LinearOrderedField α] (rows : List (MetricRow α)) :
    List (ScoredRow α) :=
  rows.map (scoreRow (maxStreakCol rows))

/-- The four persona labels of `add_persona`
(`"🛡 Income Defensive"`, `"📈 Growth Income"`, `"🎯 Yield Hunter"`,
`"🚨 Speculative"`). -/
inductive Persona where
  | incomeDefensive
  | growthIncome
  | yieldHunter
  | speculative
deriving DecidableEq, Repr

/-- The per-row body of `add_persona`: the guard of the Defensive rule
requires both `Coverage` and `CV` to be defined; inside it, the source's
`pd.isna(r["CV"])` disjunct is always false and is therefore dropped. -/
def personaRow {α : Type} [LinearOrderedField α] (r : ScoredRow α) : Persona :=
  let defensive :=
    match r.coverage, r.cv with
    | some cov, some cv =>
      decide (7/10 ≤ cov) && decide (cv ≤ 3/5) &&
        (match r.cuts with | none => true | some k => decide (k ≤ 1))
    | _, _ => false
  if defensive then .incomeDefensive
  else if (match r.divCAGR with | some c => decide (1/20 ≤ c) | none => false) then
    .growthIncome
  else if (match r.ttmYield with | some y => decide (1/20 ≤ y) | none => false) then
    .yieldHunter
  else .speculative

/-- `add_persona`: attach the persona label to every scored row. -/
def add_persona {α : Type} [LinearOrderedField α] (rows : List (ScoredRow α)) :
    List (ScoredRow α × Persona) :=
  rows.map (fun r => (r, personaRow r))

/-- The full dividend pipeline of `main`: build the filtered event
dataframe, aggregate it to annual rows, run the four metric extractors,
left-merge them into the master metrics table, score, and label. -/
def dividendPipeline {α : Type} [LinearOrderedField α] (sqrtFn : ℚ → α)
    (rpowFn : ℚ → ℤ → α) (tickerOf : String → Option String)
    (fetchDiv : String → List (Date × ℚ)) (fetchPrice : String → ℤ → ℤ → List ℚ)
    (selected : List String) (startD endD : Date) : List (ScoredRow α × Persona) :=
  let df := build_dividend_dataset tickerOf fetchDiv selected startD endD
  let ann := annual_dividends df
  let cons := consistency_metrics df ann
  let vol := volatility_metrics sqrtFn ann
  let cagr := cagr_metrics rpowFn ann
  let yld := yield_metrics tickerOf fetchDiv fetchPrice selected startD endD df
  add_persona (dividend_score (mergeMetrics cons vol cagr yld))

/-! ## C1: the Defensive classifier rule -/

/-- C1 (amended): the first classifier rule matches exactly when coverage is
defined and at least 0.70, CV is **defined** and at most 0.60, and the cut
count is undefined or at most 1; first match wins, so this characterizes the
Defensive label.  (The claim's "CV undefined OR CV ≤ 0.60" fails: the outer
guard of `persona_row` requires a defined CV.) -/
theorem personaRow_defensive_iff {α : Type} [LinearOrderedField α] (r : ScoredRow α) :
    personaRow r = Persona.incomeDefensive ↔
      ((∃ cov, r.coverage = some cov ∧ (7 : α)/10 ≤ cov) ∧
       (∃ v, r.cv = some v ∧ v ≤ (3 : α)/5) ∧
       (r.cuts = none ∨ ∃ k, r.cuts = some k ∧ k ≤ (1 : α))) := by
  unfold personaRow
  rcases hcov : r.coverage with _ | cov <;> rcases hcv : r.cv with _ | cv <;>
    rcases hk : r.cuts with _ | k <;>
    simp [hcov, hcv, hk] <;>
    split <;> simp_all <;> split <;> simp_all

/-- C1 counterexample: a row with coverage 0.80 (≥ 0.70), undefined CV and
zero cuts — per the claim it should be labeled Defensive, but the classifier
labels it Speculative because the guard requires a defined CV. -/
theorem personaRow_undefined_cv_counterexample :
    personaRow (α := ℚ)
      { company := "A", ticker := "T", coverage := some (4/5), longestStreak := none,
        cv := none, cuts := some 0, divCAGR := none, ttmYield := none, periodYield := none,
        consCoverage := none, consStreak := none, consistency := none, growth := none,
        yieldScore := none, stabilityCv := none, stabilityCuts := none, stability := none,
        dividendScore := 0 } = Persona.speculative := by
  rfl

/-! ## Helper lemmas about the aggregated groups -/

theorem attachYoY_mem_key (c t : String) (prev : Option ℚ) (l : List (ℤ × ℚ)) :
    ∀ r ∈ attachYoY c t prev l, r.company = c ∧ r.ticker = t := by
  induction l generalizing prev with
  | nil => intro r hr; simp [attachYoY] at hr
  | cons p rest ih =>
    intro r hr
    obtain ⟨y, a⟩ := p
    rw [attachYoY] at hr
    rcases List.mem_cons.mp hr with hr | hr
    · simp [hr]
    · exact ih (some a) r hr

theorem attachYoY_map_year (c t : String) (prev : Option ℚ) (l : List (ℤ × ℚ)) :
    (attachYoY c t prev l).map (fun r => r.year) = l.map Prod.fst := by
  induction l generalizing prev with
  | nil => rfl
  | cons p rest ih => obtain ⟨y, a⟩ := p; simp [attachYoY, ih]

theorem attachYoY_map_amount (c t : String) (prev : Option ℚ) (l : List (ℤ × ℚ)) :
    (attachYoY c t prev l).map (fun r => r.annualDividend) = l.map Prod.snd := by
  induction l generalizing prev with
  | nil => rfl
  | cons p rest ih => obtain ⟨y, a⟩ := p; simp [attachYoY, ih]

theorem attachYoY_head_yoy (c t : String) (l : List (ℤ × ℚ)) :
    ∀ r, (attachYoY c t none l).head? = some r → r.yoy = none := by
  cases l with
  | nil => intro r hr; simp [attachYoY] at hr
  | cons p rest =>
    intro r hr
    obtain ⟨y, a⟩ := p
    simp [attachYoY] at hr
    simp [← hr]

theorem attachYoY_getElem_yoy (c t : String) (l : List (ℤ × ℚ)) (prev : Option ℚ)
    (i : ℕ) (ra rb : AnnualRow)
    (ha : (attachYoY c t prev l)[i]? = some ra)
    (hb : (attachYoY c t prev l)[i + 1]? = some rb) :
    rb.yoy = pctChange ra.annualDividend rb.annualDividend := by
  induction l generalizing prev i with
  | nil => simp [attachYoY] at ha
  | cons p rest ih =>
    obtain ⟨y, a⟩ := p
    cases i with
    | zero =>
      simp [attachYoY] at ha
      cases rest with
      | nil => simp [attachYoY] at hb
      | cons q r2 =>
        obtain ⟨y2, a2⟩ := q
        simp [attachYoY] at hb
        simp [← ha, ← hb]
    | succ j =>
      simp only [attachYoY, List.getElem?_cons_succ] at ha hb
      exact ih (some a) j ha hb

theorem annualBase_fst_sorted (df : List EventRow) (c t : String) :
    List.Sorted (· < ·) ((annualBase df c t).map Prod.fst) := by
  have hmap : (annualBase df c t).map Prod.fst =
      List.insertionSort (· ≤ ·)
        ((df.filter (fun r => r.company = c ∧ r.ticker = t)).map (fun r => r.date.year)).dedup := by
    simp [annualBase, List.map_map, Function.comp_def]
  rw [hmap]
  apply List.Sorted.lt_of_le (List.sorted_insertionSort _ _)
  exact ((List.perm_insertionSort _ _).nodup_iff).mpr (List.nodup_dedup _)

/-! ## C4: year-over-year growth -/

/-- C4 (amended): within each company's year-sorted annual series, the first
record's growth is undefined (the first observed year, since the group's
years are strictly increasing and the first record's year is minimal), and
every later record's growth is `pct_change` against the **previous record
of the series** — the most recent earlier year present, which need not be
the immediately preceding calendar year. -/
theorem yoy_from_previous_record (df : List EventRow) (c t : String) :
    (∀ r, (annualGroup df c t).head? = some r →
      r.yoy = none ∧ ∀ r' ∈ annualGroup df c t, r.year ≤ r'.year) ∧
    (∀ (i : ℕ) (ra rb : AnnualRow),
      (annualGroup df c t)[i]? = some ra → (annualGroup df c t)[i + 1]? = some rb →
      rb.yoy = pctChange ra.annualDividend rb.annualDividend) := by
  constructor
  · intro r hr
    refine ⟨attachYoY_head_yoy c t _ r hr, ?_⟩
    intro r' hr'
    have hsorted : List.Sorted (· < ·) ((annualGroup df c t).map (fun r => r.year)) := by
      rw [annualGroup, attachYoY_map_year]
      exact annualBase_fst_sorted df c t
    rcases List.head?_eq_some_iff.mp hr with ⟨tl, htl⟩
    rw [htl] at hr' hsorted
    rcases List.mem_cons.mp hr' with h | h
    · simp [h]
    · have : r.year < r'.year := by
        rw [List.map_cons, List.sorted_cons] at hsorted
        exact hsorted.1 _ (List.mem_map_of_mem _ h)
      exact le_of_lt this
  · intro i ra rb ha hb
    exact attachYoY_getElem_yoy c t _ none i ra rb ha hb

theorem yoy_from_previous_record_witness :
    ({ company := "A", ticker := "T", year := 2022, annualDividend := 2,
       yoy := some 1 } : AnnualRow).yoy = pctChange 1 2 :=
  (yoy_from_previous_record
      [{ company := "A", ticker := "T", date := ⟨10, 2020⟩, dividend := 1 },
       { company := "A", ticker := "T", date := ⟨800, 2022⟩, dividend := 2 }] "A" "T").2 0
    { company := "A", ticker := "T", year := 2020, annualDividend := 1, yoy := none }
    { company := "A", ticker := "T", year := 2022, annualDividend := 2, yoy := some 1 }
    (by norm_num [annualGroup, annualBase, attachYoY, pctChange,
      List.insertionSort, List.orderedInsert, List.dedup, List.filter])
    (by norm_num [annualGroup, annualBase, attachYoY, pctChange,
      List.insertionSort, List.orderedInsert, List.dedup, List.filter])

/-! ## C3: the yield extractor -/

/-- C3 (amended): for each window, the yield equals the summed dividend of
the window divided by the window's mean price, and it is undefined exactly
when the mean price is unavailable or zero (or the company's dividend
history is empty altogether, which yields an all-`NA` row).  A zero
dividend sum with an available non-zero mean price gives a **defined**
yield of zero; only the displayed TTM dividend amount is `NA`-ed on a zero
sum. -/
theorem yield_undefined_iff_price_missing (tickerOf : String → Option String)
    (fetchDiv : String → List (Date × ℚ)) (fetchPrice : String → ℤ → ℤ → List ℚ)
    (selected : List String) (startD endD : Date) (dfEvents : List EventRow)
    (row : YieldRow)
    (hrow : row ∈ yield_metrics tickerOf fetchDiv fetchPrice selected startD endD dfEvents) :
    (fetchDiv row.ticker = [] →
      row.ttmDividend = none ∧ row.ttmYield = none ∧ row.periodYield = none) ∧
    (fetchDiv row.ticker ≠ [] →
      (row.ttmYield = none ↔
        avgPrice (fetchPrice row.ticker (endD.days - 365) endD.days) = none ∨
        avgPrice (fetchPrice row.ticker (endD.days - 365) endD.days) = some 0) ∧
      (∀ a, avgPrice (fetchPrice row.ticker (endD.days - 365) endD.days) = some a → a ≠ 0 →
        row.ttmYield = some (ttmWindowSum fetchDiv row.ticker endD / a)) ∧
      (row.periodYield = none ↔
        avgPrice (fetchPrice row.ticker startD.days endD.days) = none ∨
        avgPrice (fetchPrice row.ticker startD.days endD.days) = some 0) ∧
      (∀ a, avgPrice (fetchPrice row.ticker startD.days endD.days) = some a → a ≠ 0 →
        row.periodYield = some (periodSum dfEvents row.company / a))) := by
  rw [yield_metrics, List.mem_filterMap] at hrow
  obtain ⟨comp, _, hf⟩ := hrow
  rcases htic : tickerOf comp with _ | tic
  · rw [htic] at hf; simp at hf
  · rw [htic] at hf
    simp only at hf
    by_cases hemp : fetchDiv tic = []
    · rw [if_pos hemp] at hf
      obtain rfl := Option.some_injective _ hf
      refine ⟨fun _ => ⟨rfl, rfl, rfl⟩, fun hne => absurd hemp hne⟩
    · rw [if_neg hemp] at hf
      obtain rfl := Option.some_injective _ hf
      refine ⟨fun h => absurd h hemp, fun _ => ?_⟩
      refine ⟨?_, ?_, ?_, ?_⟩
      · rcases havg : avgPrice (fetchPrice tic (endD.days - 365) endD.days) with _ | a
        · simp [havg]
        · by_cases ha : a = 0 <;> simp [havg, ha]
      · intro a havg ha
        simp [havg, ha]
      · rcases havg : avgPrice (fetchPrice tic startD.days endD.days) with _ | a
        · simp [havg]
        · by_cases ha : a = 0 <;> simp [havg, ha]
      · intro a havg ha
        simp [havg, ha]

/-- C3 counterexample: a company whose only dividend event (day 0) lies
outside the trailing-12-month window `[635, 1000]` and outside the user
period, with a constant price of 2.  Both summed dividends are zero, so the
claim demands undefined yields; the code returns the defined yields
`0 / 2 = 0` (only the displayed TTM dividend amount becomes `NA`). -/
theorem yield_zero_sum_defined_counterexample :
    yield_metrics (fun c => some c)
      (fun t => if t = "A" then [(⟨0, 2000⟩, 1)] else [])
      (fun _ _ _ => [2]) ["A"] ⟨900, 2024⟩ ⟨1000, 2024⟩ [] =
      [{ company := "A", ticker := "A", ttmDividend := none,
         ttmYield := some 0, periodYield := some 0 }] ∧
    some (0 : ℚ) ≠ none := by
  refine ⟨?_, by simp⟩
  norm_num [yield_metrics, ttmWindowSum, periodSum, avgPrice, List.filterMap, List.filter]

theorem yield_undefined_iff_price_missing_witness :
    ({ company := "A", ticker := "T", ttmDividend := some 1,
       ttmYield := some (1/2), periodYield := some 0 } : YieldRow).ttmYield =
      some (ttmWindowSum (fun t => if t = "T" then [(⟨50, 2020⟩, 1)] else []) "T" ⟨100, 0⟩ / 2) :=
  ((yield_undefined_iff_price_missing (fun _ => some "T")
      (fun t => if t = "T" then [(⟨50, 2020⟩, 1)] else [])
      (fun _ _ _ => [2]) ["A"] ⟨0, 0⟩ ⟨100, 0⟩ []
      { company := "A", ticker := "T", ttmDividend := some 1,
        ttmYield := some (1/2), periodYield := some 0 }
      (by norm_num [yield_metrics, ttmWindowSum, periodSum, avgPrice,
        List.filterMap, List.filter])).2
    (by norm_num)).2.1 2 (by norm_num [avgPrice]) (by norm_num)

/-! ## C5: the observed year span -/

/-- C5 (amended): `YearsObserved` is `max year - min year + 1` over the
years of the **`annual` table handed to the extractor** — in the pipeline
the `[start, end]`-filtered aggregation, not the company's full unfiltered
series — and coverage is `YearsPaid / YearsObserved` over that same
filtered table, so coverage reflects the queried slice. -/
theorem consRowFor_company (df : List EventRow) (ann : List AnnualRow) (k : String × String) :
    (consRowFor df ann k).company = k.1 := by
  unfold consRowFor
  dsimp only
  split <;> rfl

theorem consRowFor_ticker (df : List EventRow) (ann : List AnnualRow) (k : String × String) :
    (consRowFor df ann k).ticker = k.2 := by
  unfold consRowFor
  dsimp only
  split <;> rfl

theorem yearsObserved_from_filtered_annual (df : List EventRow) (ann : List AnnualRow)
    (r : ConsRow) (hr : r ∈ consistency_metrics df ann) :
    r.yearsObserved =
      yearSpan ((ann.filter (fun a => a.company = r.company ∧ a.ticker = r.ticker)).map
        (fun a => a.year)) ∧
    r.coverage = (match r.yearsPaid, r.yearsObserved with
      | some yp, some yo => some ((yp : ℚ) / (yo : ℚ))
      | _, _ => none) := by
  rw [consistency_metrics] at hr
  by_cases hann : ann = []
  · rw [if_pos hann] at hr
    obtain ⟨k, _, rfl⟩ := List.mem_map.mp hr
    subst hann
    exact ⟨rfl, rfl⟩
  · rw [if_neg hann] at hr
    obtain ⟨k, _, rfl⟩ := List.mem_map.mp hr
    simp only [consRowFor_company, consRowFor_ticker]
    unfold consRowFor
    dsimp only
    split
    · next heq => rw [heq]; exact ⟨rfl, rfl⟩
    · next y ys heq => rw [heq]; exact ⟨rfl, rfl⟩

/-- C5 counterexample: a company that paid in 2010 (day 100) and 2020
(day 3700), queried over the window `[3600, 3800]` which contains only the
2020 event.  The claim's full-history span would be `2020 - 2010 + 1 = 11`
observed years with coverage `2/11`; the code computes the span over the
filtered window's annual table and reports 1 observed year with coverage 1. -/
theorem yearsObserved_window_counterexample :
    (consistency_metrics
        (build_dividend_dataset (fun _ => some "T")
          (fun _ => [(⟨100, 2010⟩, 1), (⟨3700, 2020⟩, 1)]) ["A"] ⟨3600, 0⟩ ⟨3800, 0⟩)
        (annual_dividends
          (build_dividend_dataset (fun _ => some "T")
            (fun _ => [(⟨100, 2010⟩, 1), (⟨3700, 2020⟩, 1)]) ["A"] ⟨3600, 0⟩ ⟨3800, 0⟩))).map
      (fun r => (r.company, r.yearsObserved, r.coverage)) = [("A", some 1, some 1)] ∧
    (2020 - 2010 + 1 : ℤ) ≠ 1 := by
  refine ⟨?_, by norm_num⟩
  norm_num [consistency_metrics, consRowFor, build_dividend_dataset, annual_dividends,
    annualGroup, keysOf, annualBase, attachYoY, pctChange, longestStreakOf, streakGo,
    eventLE, List.insertionSort, List.orderedInsert, List.dedup, List.filter, List.flatMap]

theorem yearsObserved_from_filtered_annual_witness :
    ({ company := "A", ticker := "T", payments := 1, yearsPaid := some 1,
       yearsObserved := some 1, coverage := some 1, longestStreak := some 1,
       paymentsPerYear := some 1 } : ConsRow).yearsObserved =
      yearSpan (((annual_dividends
          [{ company := "A", ticker := "T", date := ⟨10, 2020⟩, dividend := (1 : ℚ) }]).filter
        (fun a => a.company = "A" ∧ a.ticker = "T")).map (fun a => a.year)) :=
  (yearsObserved_from_filtered_annual
    [{ company := "A", ticker := "T", date := ⟨10, 2020⟩, dividend := (1 : ℚ) }]
    (annual_dividends
      [{ company := "A", ticker := "T", date := ⟨10, 2020⟩, dividend := (1 : ℚ) }])
    { company := "A", ticker := "T", payments := 1, yearsPaid := some 1,
      yearsObserved := some 1, coverage := some 1, longestStreak := some 1,
      paymentsPerYear := some 1 }
    (by norm_num [consistency_metrics, consRowFor, annual_dividends, annualGroup, keysOf,
      annualBase, attachYoY, pctChange, longestStreakOf, streakGo,
      List.insertionSort, List.orderedInsert, List.dedup, List.filter, List.flatMap])).1

/-! ## C10: single-record volatility -/

/-- C10: a company whose aggregated series has exactly one annual record
gets an undefined (not zero) sample standard deviation (pandas `std` with
`ddof = 1` needs at least two observations) and hence an undefined
coefficient of variation; with `CV` undefined, the stability sub-score of
`dividend_score` degenerates to the cuts component alone. -/
theorem meanO_none_left {α : Type} [LinearOrderedField α] (x : Option α) :
    meanO none x = x := by
  cases x <;> rfl

theorem single_year_std_cv_undefined {α : Type} [LinearOrderedField α]
    (sqrtFn : ℚ → α) (annual : List AnnualRow) (v : VolRow α)
    (hv : v ∈ volatility_metrics sqrtFn annual)
    (h1 : (annual.filter (fun a => a.company = v.company ∧ a.ticker = v.ticker)).length = 1) :
    v.annualStd = none ∧ v.cv = none ∧
    (∀ (mx : Option α) (r : MetricRow α), r.cv = none →
      (scoreRow mx r).stability = (scoreRow mx r).stabilityCuts) := by
  rw [volatility_metrics] at hv
  obtain ⟨k, _, rfl⟩ := List.mem_map.mp hv
  dsimp only at h1
  have h2 : ¬ 2 ≤ ((annual.filter (fun a => a.company = k.1 ∧ a.ticker = k.2)).map
      (fun a => a.annualDividend)).length := by
    rw [List.length_map, h1]; norm_num
  refine ⟨?_, ?_, ?_⟩
  · exact if_neg h2
  · show Option.bind (if _ then _ else _) _ = none
    rw [if_neg h2]
    rfl
  · intro mx r hcv
    simp [scoreRow, hcv, meanO_none_left]

theorem single_year_std_cv_undefined_witness :
    ({ company := "A", ticker := "T", annualMean := 1, annualStd := none, cv := none,
       cuts := 0 } : VolRow ℚ).annualStd = none ∧
    ({ company := "A", ticker := "T", annualMean := 1, annualStd := none, cv := none,
       cuts := 0 } : VolRow ℚ).cv = none ∧
    (scoreRow (α := ℚ) none
        { company := "A", ticker := "T", coverage := some 1, longestStreak := some 1,
          cv := none, cuts := some 0, divCAGR := none, ttmYield := none,
          periodYield := none }).stability =
      (scoreRow (α := ℚ) none
        { company := "A", ticker := "T", coverage := some 1, longestStreak := some 1,
          cv := none, cuts := some 0, divCAGR := none, ttmYield := none,
          periodYield := none }).stabilityCuts := by
  have T := single_year_std_cv_undefined (fun q => q)
    [{ company := "A", ticker := "T", year := 2020, annualDividend := 1, yoy := none }]
    { company := "A", ticker := "T", annualMean := 1, annualStd := none, cv := none, cuts := 0 }
    (by norm_num [volatility_metrics, annualKeysOf, sampleVar, List.filter, List.dedup])
    (by norm_num [List.filter])
  exact ⟨T.1, T.2.1, T.2.2 none _ rfl⟩

/-! ## Bounds of the normalized sub-scores -/

theorem clamp01_mem {α : Type} [LinearOrderedField α] (x : α) :
    0 ≤ clamp01 x ∧ clamp01 x ≤ 1 :=
  ⟨le_max_left 0 _, max_le zero_le_one (min_le_left 1 x)⟩

theorem growthVal_mem {α : Type} [LinearOrderedField α] (x : α) :
    0 ≤ max (-(1/2)) (min (1/2) x) + 1/2 ∧ max (-(1/2)) (min (1/2) x) + 1/2 ≤ 1 := by
  constructor
  · have := le_max_left (-(1/2 : α)) (min (1/2) x)
    linarith
  · have h1 : max (-(1/2 : α)) (min (1/2) x) ≤ 1/2 :=
      max_le (by norm_num) (min_le_left _ _)
    linarith

theorem yieldVal_mem {α : Type} [LinearOrderedField α] (x : α) :
    0 ≤ max 0 (min (1/10) x) / (1/10) ∧ max 0 (min (1/10) x) / (1/10) ≤ 1 := by
  constructor
  · exact div_nonneg (le_max_left 0 _) (by norm_num)
  · rw [div_le_one (by norm_num : (0 : α) < 1/10)]
    exact max_le (by norm_num) (min_le_left _ _)

theorem cvVal_mem {α : Type} [LinearOrderedField α] (x : α) :
    0 ≤ 1 - max 0 (min 2 x) / 2 ∧ 1 - max 0 (min 2 x) / 2 ≤ 1 := by
  have h0 : (0 : α) ≤ max 0 (min 2 x) := le_max_left 0 _
  have h2 : max 0 (min 2 x) ≤ 2 := max_le (by norm_num) (min_le_left _ _)
  constructor <;> [linarith; linarith]

theorem cutsVal_mem {α : Type} [LinearOrderedField α] (x : α) :
    0 ≤ 1 - max 0 (min 4 x) / 4 ∧ 1 - max 0 (min 4 x) / 4 ≤ 1 := by
  have h0 : (0 : α) ≤ max 0 (min 4 x) := le_max_left 0 _
  have h4 : max 0 (min 4 x) ≤ 4 := max_le (by norm_num) (min_le_left _ _)
  constructor <;> [linarith; linarith]

theorem maxStreakCol_ge {α : Type} [LinearOrderedField α] (rows : List (MetricRow α))
    (r : MetricRow α) (x : α) (hr : r ∈ rows) (hx : r.longestStreak = some x) :
    ∃ m, maxStreakCol rows = some m ∧ x ≤ m := by
  induction rows with
  | nil => simp at hr
  | cons a l ih =>
    rcases List.mem_cons.mp hr with rfl | hr
    · rw [maxStreakCol, List.foldr_cons, hx]
      rcases hacc : (l.foldr (fun r acc =>
          match r.longestStreak, acc with
          | none, a => a
          | some x, none => some x
          | some x, some m => some (max x m)) none) with _ | m
      · rw [hacc]
        exact ⟨x, rfl, le_refl x⟩
      · rw [hacc]
        exact ⟨max x m, rfl, le_max_left x m⟩
    · obtain ⟨m, hm, hxm⟩ := ih hr
      rw [maxStreakCol] at hm ⊢
      rw [List.foldr_cons, hm]
      rcases ha : a.longestStreak with _ | x2
      · exact ⟨m, rfl, hxm⟩
      · exact ⟨max x2 m, rfl, le_trans hxm (le_max_right x2 m)⟩

theorem meanO_mem {α : Type} [LinearOrderedField α] (a b : Option α)
    (ha : ∀ v, a = some v → 0 ≤ v ∧ v ≤ 1) (hb : ∀ v, b = some v → 0 ≤ v ∧ v ≤ 1) :
    ∀ v, meanO a b = some v → 0 ≤ v ∧ v ≤ 1 := by
  intro v hv
  rcases a with _ | x <;> rcases b with _ | y <;> simp [meanO] at hv
  · exact hv ▸ hb y rfl
  · exact hv ▸ ha x rfl
  · obtain ⟨hx0, hx1⟩ := ha x rfl
    obtain ⟨hy0, hy1⟩ := hb y rfl
    constructor <;> [linarith [hv]; linarith [hv]]

theorem map_mem_01 {α : Type} [LinearOrderedField α] (o : Option α) (f : α → α)
    (hf : ∀ x, 0 ≤ f x ∧ f x ≤ 1) :
    ∀ v, o.map f = some v → 0 ≤ v ∧ v ≤ 1 := by
  intro v hv
  rcases o with _ | x
  · simp at hv
  · simp at hv
    exact hv ▸ hf x

theorem getD_mem_01 {α : Type} [LinearOrderedField α] (o : Option α)
    (h : ∀ v, o = some v → 0 ≤ v ∧ v ≤ 1) : 0 ≤ o.getD 0 ∧ o.getD 0 ≤ 1 := by
  rcases o with _ | v
  · exact ⟨le_refl 0, zero_le_one⟩
  · exact h v rfl

theorem scoreRow_raw {α : Type} [LinearOrderedField α] (mx : Option α) (r : MetricRow α) :
    (scoreRow mx r).toMetricRow = r := rfl

theorem scoreRow_subscore_bounds {α : Type} [LinearOrderedField α]
    (rows : List (MetricRow α))
    (hstreak : ∀ r' ∈ rows, ∀ x, r'.longestStreak = some x → 0 ≤ x)
    (r : MetricRow α) (hr : r ∈ rows) :
    (∀ v, (scoreRow (maxStreakCol rows) r).consistency = some v → 0 ≤ v ∧ v ≤ 1) ∧
    (∀ v, (scoreRow (maxStreakCol rows) r).growth = some v → 0 ≤ v ∧ v ≤ 1) ∧
    (∀ v, (scoreRow (maxStreakCol rows) r).yieldScore = some v → 0 ≤ v ∧ v ≤ 1) ∧
    (∀ v, (scoreRow (maxStreakCol rows) r).stability = some v → 0 ≤ v ∧ v ≤ 1) := by
  have hstreakB : ∀ v, (match r.longestStreak, maxStreakCol rows with
      | some x, some m => if 0 < m then some (x/m) else none
      | _, _ => (none : Option α)) = some v → 0 ≤ v ∧ v ≤ 1 := by
    intro v hv
    rcases hsx : r.longestStreak with _ | x
    · rw [hsx] at hv; simp at hv
    · obtain ⟨m, hm, hxm⟩ := maxStreakCol_ge rows r x hr hsx
      rw [hsx, hm] at hv
      dsimp only at hv
      by_cases hmpos : 0 < m
      · rw [if_pos hmpos] at hv
        obtain rfl := Option.some_injective _ hv
        have hx0 : 0 ≤ x := hstreak r hr x hsx
        exact ⟨div_nonneg hx0 (le_of_lt hmpos), (div_le_one hmpos).mpr hxm⟩
      · rw [if_neg hmpos] at hv; simp at hv
  refine ⟨?_, ?_, ?_, ?_⟩
  · exact meanO_mem _ _ (map_mem_01 r.coverage clamp01 clamp01_mem) hstreakB
  · exact map_mem_01 r.divCAGR _ growthVal_mem
  · exact map_mem_01 r.ttmYield _ yieldVal_mem
  · exact meanO_mem _ _ (map_mem_01 r.cv _ cvVal_mem) (map_mem_01 r.cuts _ cutsVal_mem)

/-! ## C9: normalizer range and undefined propagation -/

/-- C9: each of the four normalized sub-scores is either a value in `[0,1]`
or explicitly undefined; an undefined raw input leaves its normalized
component undefined at this stage (coverage, CAGR, TTM yield, CV and cuts
all propagate `NA` through their clamp-maps, and the two composite
sub-scores are undefined when all of their components are) — nothing is
coerced to 0 before the final weighted sum.  The streak inputs of the
comparison set are non-negative counts, which the hypothesis records. -/
theorem normalizer_range_and_propagation {α : Type} [LinearOrderedField α]
    (rows : List (MetricRow α))
    (hstreak : ∀ r' ∈ rows, ∀ x, r'.longestStreak = some x → 0 ≤ x)
    (s : ScoredRow α) (hs : s ∈ dividend_score rows) :
    ((∀ v, s.consistency = some v → 0 ≤ v ∧ v ≤ 1) ∧
     (∀ v, s.growth = some v → 0 ≤ v ∧ v ≤ 1) ∧
     (∀ v, s.yieldScore = some v → 0 ≤ v ∧ v ≤ 1) ∧
     (∀ v, s.stability = some v → 0 ≤ v ∧ v ≤ 1)) ∧
    (s.divCAGR = none → s.growth = none) ∧
    (s.ttmYield = none → s.yieldScore = none) ∧
    (s.coverage = none → s.consCoverage = none) ∧
    (s.cv = none → s.stabilityCv = none) ∧
    (s.cuts = none → s.stabilityCuts = none) ∧
    (s.coverage = none ∧ s.longestStreak = none → s.consistency = none) ∧
    (s.cv = none ∧ s.cuts = none → s.stability = none) := by
  rw [dividend_score] at hs
  obtain ⟨r, hr, rfl⟩ := List.mem_map.mp hs
  refine ⟨scoreRow_subscore_bounds rows hstreak r hr, ?_, ?_, ?_, ?_, ?_, ?_, ?_⟩
  · intro h
    show r.divCAGR.map _ = none
    rw [show (scoreRow (maxStreakCol rows) r).divCAGR = r.divCAGR from rfl] at h
    rw [h]; rfl
  · intro h
    show r.ttmYield.map _ = none
    rw [show (scoreRow (maxStreakCol rows) r).ttmYield = r.ttmYield from rfl] at h
    rw [h]; rfl
  · intro h
    show r.coverage.map _ = none
    rw [show (scoreRow (maxStreakCol rows) r).coverage = r.coverage from rfl] at h
    rw [h]; rfl
  · intro h
    show r.cv.map _ = none
    rw [show (scoreRow (maxStreakCol rows) r).cv = r.cv from rfl] at h
    rw [h]; rfl
  · intro h
    show r.cuts.map _ = none
    rw [show (scoreRow (maxStreakCol rows) r).cuts = r.cuts from rfl] at h
    rw [h]; rfl
  · intro ⟨h1, h2⟩
    rw [show (scoreRow (maxStreakCol rows) r).coverage = r.coverage from rfl] at h1
    rw [show (scoreRow (maxStreakCol rows) r).longestStreak = r.longestStreak from rfl] at h2
    show meanO (r.coverage.map clamp01) _ = none
    rw [h1]
    rcases hmx : maxStreakCol rows with _ | m <;> rw [h2] <;> rfl
  · intro ⟨h1, h2⟩
    rw [show (scoreRow (maxStreakCol rows) r).cv = r.cv from rfl] at h1
    rw [show (scoreRow (maxStreakCol rows) r).cuts = r.cuts from rfl] at h2
    show meanO (r.cv.map _) (r.cuts.map _) = none
    rw [h1, h2]; rfl

/-! ## C2: the composite score -/

/-- C2: the composite score of every scored row equals
`100 × (0.40·consistency + 0.25·growth + 0.20·yield + 0.15·stability)`
with each undefined sub-score replaced by 0 inside this weighted sum only,
and it always lies in `[0, 100]` (the hypothesis records that the streak
column holds non-negative counts, as the pipeline guarantees). -/
theorem dividendScore_formula_and_range {α : Type} [LinearOrderedField α]
    (rows : List (MetricRow α))
    (hstreak : ∀ r' ∈ rows, ∀ x, r'.longestStreak = some x → 0 ≤ x)
    (s : ScoredRow α) (hs : s ∈ dividend_score rows) :
    s.dividendScore = 100 * (2/5 * s.consistency.getD 0 + 1/4 * s.growth.getD 0 +
      1/5 * s.yieldScore.getD 0 + 3/20 * s.stability.getD 0) ∧
    0 ≤ s.dividendScore ∧ s.dividendScore ≤ 100 := by
  rw [dividend_score] at hs
  obtain ⟨r, hr, rfl⟩ := List.mem_map.mp hs
  obtain ⟨Bc, Bg, By, Bs⟩ := scoreRow_subscore_bounds rows hstreak r hr
  obtain ⟨hc0, hc1⟩ := getD_mem_01 _ Bc
  obtain ⟨hg0, hg1⟩ := getD_mem_01 _ Bg
  obtain ⟨hy0, hy1⟩ := getD_mem_01 _ By
  obtain ⟨hs0, hs1⟩ := getD_mem_01 _ Bs
  have hform : (scoreRow (maxStreakCol rows) r).dividendScore =
      (2/5 * (scoreRow (maxStreakCol rows) r).consistency.getD 0 +
       1/4 * (scoreRow (maxStreakCol rows) r).growth.getD 0 +
       1/5 * (scoreRow (maxStreakCol rows) r).yieldScore.getD 0 +
       3/20 * (scoreRow (maxStreakCol rows) r).stability.getD 0) * 100 := rfl
  refine ⟨by rw [hform]; ring, ?_, ?_⟩
  · rw [hform]
    have h1 : 0 ≤ 2/5 * (scoreRow (maxStreakCol rows) r).consistency.getD 0 := by positivity
    nlinarith [hc0, hg0, hy0, hs0]
  · rw [hform]
    nlinarith [hc1, hg1, hy1, hs1, hc0, hg0, hy0, hs0]

/-- Concrete fully-defined metric row used to witness the score bounds. -/
def rowC2W : MetricRow ℚ :=
  { company := "A", ticker := "T", coverage := some (4/5), longestStreak := some 3,
    cv := some (1/2), cuts := some 1, divCAGR := some (1/10), ttmYield := some (1/20),
    periodYield := some 0 }

theorem dividendScore_formula_and_range_witness :
    0 ≤ (scoreRow (maxStreakCol [rowC2W]) rowC2W).dividendScore ∧
    (scoreRow (maxStreakCol [rowC2W]) rowC2W).dividendScore ≤ 100 :=
  let T := dividendScore_formula_and_range [rowC2W]
    (by
      intro r' hr' x hx
      rw [List.mem_singleton] at hr'
      subst hr'
      obtain rfl : (3 : ℚ) = x := by simpa [rowC2W] using hx
      norm_num)
    _ (by simp [dividend_score])
  ⟨T.2.1, T.2.2⟩

/-- Concrete row with undefined CAGR, yield, CV and cuts, used to witness
the undefined-propagation part of the normalizer property. -/
def rowC9W : MetricRow ℚ :=
  { company := "A", ticker := "T", coverage := some 1, longestStreak := none,
    cv := none, cuts := none, divCAGR := none, ttmYield := none, periodYield := none }

theorem normalizer_range_and_propagation_witness :
    (scoreRow (maxStreakCol [rowC9W]) rowC9W).growth = none ∧
    (scoreRow (maxStreakCol [rowC9W]) rowC9W).stability = none :=
  let T := normalizer_range_and_propagation [rowC9W]
    (by
      intro r' hr' x hx
      rw [List.mem_singleton] at hr'
      subst hr'
      simp [rowC9W] at hx)
    _ (by simp [dividend_score])
  ⟨T.2.1 rfl, T.2.2.2.2.2.2.2 ⟨rfl, rfl⟩⟩

/-! ## C6: companies with no dividend events -/

theorem add_persona_map_company {α : Type} [LinearOrderedField α]
    (rows : List (ScoredRow α)) :
    (add_persona rows).map (fun p => p.1.company) = rows.map (fun s => s.company) := by
  simp [add_persona, List.map_map, Function.comp_def]

theorem dividend_score_map_company {α : Type} [LinearOrderedField α]
    (rows : List (MetricRow α)) :
    (dividend_score rows).map (fun s => s.company) = rows.map (fun r => r.company) := by
  simp only [dividend_score, List.map_map, Function.comp_def]
  rfl

theorem mergeMetrics_map_company {α : Type} [LinearOrderedField α] (cons : List ConsRow)
    (vol : List (VolRow α)) (cagr : List (CagrRow α)) (yld : List YieldRow) :
    (mergeMetrics cons vol cagr yld).map (fun r => r.company) =
      cons.map (fun c => c.company) := by
  simp only [mergeMetrics, List.map_map, Function.comp_def]

theorem consistency_metrics_map_company (df : List EventRow) (ann : List AnnualRow) :
    (consistency_metrics df ann).map (fun r => r.company) = (keysOf df).map Prod.fst := by
  rw [consistency_metrics]
  split
  · simp [List.map_map, Function.comp_def]
  · simp [List.map_map, Function.comp_def, consRowFor_company]

theorem mem_build_dividend_dataset (tickerOf : String → Option String)
    (fetchDiv : String → List (Date × ℚ)) (sel : List String) (startD endD : Date)
    (r : EventRow) (hr : r ∈ build_dividend_dataset tickerOf fetchDiv sel startD endD) :
    tickerOf r.company = some r.ticker ∧ fetchDiv r.ticker ≠ [] := by
  unfold build_dividend_dataset at hr
  have hr2 := ((List.perm_insertionSort eventLE _).mem_iff).mp hr
  rw [List.mem_filter] at hr2
  obtain ⟨hmem, _⟩ := hr2
  rw [List.mem_flatMap] at hmem
  obtain ⟨comp, _, hin⟩ := hmem
  rcases htic : tickerOf comp with _ | t
  · rw [htic] at hin; simp at hin
  · rw [htic] at hin
    dsimp only at hin
    by_cases hemp : fetchDiv t = []
    · rw [if_pos hemp] at hin; simp at hin
    · rw [if_neg hemp] at hin
      rw [List.mem_map] at hin
      obtain ⟨e, _, rfl⟩ := hin
      exact ⟨htic, hemp⟩

/-- C6 (amended): a selected company whose full dividend history is empty
contributes no event rows, hence no `(Company, Ticker)` group key, and so
**no row at all** in the final scored-and-labeled metrics table — it is
dropped (in the real UI it only surfaces through the yield extractor and a
global "no data" warning), rather than surfaced as a Speculative row. -/
theorem zero_event_company_absent {α : Type} [LinearOrderedField α]
    (sqrtFn : ℚ → α) (rpowFn : ℚ → ℤ → α) (tickerOf : String → Option String)
    (fetchDiv : String → List (Date × ℚ)) (fetchPrice : String → ℤ → ℤ → List ℚ)
    (sel : List String) (startD endD : Date) (comp : String)
    (h : ∀ t, tickerOf comp = some t → fetchDiv t = []) :
    comp ∉ (dividendPipeline sqrtFn rpowFn tickerOf fetchDiv fetchPrice sel
      startD endD).map (fun p => p.1.company) := by
  intro hmem
  simp only [dividendPipeline, add_persona_map_company, dividend_score_map_company,
    mergeMetrics_map_company, consistency_metrics_map_company] at hmem
  rw [List.mem_map] at hmem
  obtain ⟨k, hk, hkc⟩ := hmem
  rw [keysOf, List.mem_dedup, List.mem_map] at hk
  obtain ⟨r, hrdf, hkr⟩ := hk
  obtain ⟨htic, hne⟩ :=
    mem_build_dividend_dataset tickerOf fetchDiv sel startD endD r hrdf
  have hcomp : r.company = comp := by rw [← hkc, ← hkr]
  exact hne (h r.ticker (hcomp ▸ htic))

/-- C6 counterexample: companies A (one event) and B (zero events ever) are
both selected; the final labeled metrics table contains a row for A only —
B gets no row, no bundle and no Speculative persona. -/
theorem zero_event_company_dropped_counterexample :
    ((dividendPipeline (α := ℝ) (fun q => Real.sqrt (q : ℝ))
        (fun q n => ((q : ℝ)) ^ (((n : ℤ) : ℝ))⁻¹)
        (fun c => if c = "A" then some "TA" else if c = "B" then some "TB" else none)
        (fun t => if t = "TA" then [(⟨10, 2020⟩, 1)] else [])
        (fun _ _ _ => [1]) ["A", "B"] ⟨0, 0⟩ ⟨100, 0⟩).map (fun p => p.1.company)) =
      ["A"] ∧ ("B" : String) ∉ (["A"] : List String) := by
  refine ⟨?_, by simp⟩
  simp only [dividendPipeline, add_persona_map_company, dividend_score_map_company,
    mergeMetrics_map_company, consistency_metrics_map_company]
  norm_num [build_dividend_dataset, keysOf, eventLE, List.insertionSort,
    List.orderedInsert, List.filter, List.flatMap, List.dedup]

theorem zero_event_company_absent_witness :
    ("B" : String) ∉ ((dividendPipeline (α := ℝ) (fun q => Real.sqrt (q : ℝ))
        (fun q n => ((q : ℝ)) ^ (((n : ℤ) : ℝ))⁻¹)
        (fun c => if c = "A" then some "TA" else if c = "B" then some "TB" else none)
        (fun t => if t = "TA" then [(⟨20, 2021⟩, 2)] else [])
        (fun _ _ _ => [3]) ["A", "B"] ⟨0, 0⟩ ⟨100, 0⟩).map (fun p => p.1.company)) :=
  zero_event_company_absent (fun q => Real.sqrt (q : ℝ))
    (fun q n => ((q : ℝ)) ^ (((n : ℤ) : ℝ))⁻¹)
    (fun c => if c = "A" then some "TA" else if c = "B" then some "TB" else none)
    (fun t => if t = "TA" then [(⟨20, 2021⟩, 2)] else [])
    (fun _ _ _ => [3]) ["A", "B"] ⟨0, 0⟩ ⟨100, 0⟩ "B"
    (by
      intro t ht
      simp at ht
      rw [← ht]
      rfl)

/-! ## C7: uniqueness and conservation of the aggregation -/

theorem sum_map_filter_add {β : Type} (l : List β) (p : β → Bool) (f : β → ℚ) :
    ((l.filter p).map f).sum + ((l.filter (fun b => !(p b))).map f).sum = (l.map f).sum := by
  induction l with
  | nil => simp
  | cons a l ih =>
    by_cases hp : p a <;> simp [hp] <;> linarith [ih]

theorem sum_flatMap_eq {κ : Type} (l : List κ) (f : κ → List ℚ) :
    (l.flatMap f).sum = (l.map (fun k => (f k).sum)).sum := by
  induction l with
  | nil => rfl
  | cons a l ih => simp [ih]

theorem sum_map_ite {κ : Type} (l : List κ) (p : κ → Prop) [DecidablePred p] (f : κ → ℚ) :
    (l.map (fun k => if p k then f k else 0)).sum = ((l.filter (fun k => p k)).map f).sum := by
  induction l with
  | nil => rfl
  | cons a l ih => by_cases hp : p a <;> simp [hp, ih]

theorem sum_partition {β κ : Type} [DecidableEq κ] (key : β → κ) (f : β → ℚ) :
    ∀ (keys : List κ) (l : List β), keys.Nodup → (∀ b ∈ l, key b ∈ keys) →
      (keys.map (fun k => ((l.filter (fun b => key b = k)).map f).sum)).sum =
        (l.map f).sum := by
  intro keys
  induction keys with
  | nil =>
    intro l _ hcov
    have : l = [] := List.eq_nil_iff_forall_not_mem.mpr (fun b hb => by simpa using hcov b hb)
    subst this
    rfl
  | cons k ks ih =>
    intro l hnd hcov
    have hknotin : k ∉ ks := (List.nodup_cons.mp hnd).1
    have hndks : ks.Nodup := (List.nodup_cons.mp hnd).2
    rw [List.map_cons, List.sum_cons]
    have hrest : (ks.map (fun k2 => ((l.filter (fun b => key b = k2)).map f).sum)).sum =
        (ks.map (fun k2 =>
          (((l.filter (fun b => !(decide (key b = k)))).filter
            (fun b => key b = k2)).map f).sum)).sum := by
      apply congrArg
      apply List.map_congr_left
      intro k2 hk2
      have hne : k2 ≠ k := fun h => hknotin (h ▸ hk2)
      congr 1
      apply congrArg
      rw [List.filter_filter]
      apply List.filter_congr
      intro b _
      by_cases hb : key b = k2
      · simp [hb, hne]
      · simp [hb]
    rw [hrest]
    have hcov2 : ∀ b ∈ l.filter (fun b => !(decide (key b = k))), key b ∈ ks := by
      intro b hb
      rw [List.mem_filter] at hb
      rcases List.mem_cons.mp (hcov b hb.1) with h | h
      · exact absurd (by simpa using h) (by simpa using hb.2)
      · exact h
    rw [ih (l.filter (fun b => !(decide (key b = k)))) hndks hcov2]
    exact sum_map_filter_add l (fun b => decide (key b = k)) f

theorem annualGroup_sum (df : List EventRow) (c t : String) :
    ((annualGroup df c t).map (fun r => r.annualDividend)).sum =
      ((df.filter (fun r => r.company = c ∧ r.ticker = t)).map (fun r => r.dividend)).sum := by
  rw [annualGroup, attachYoY_map_amount, annualBase]
  rw [List.map_map]
  have hshape : ((Prod.snd (α := ℤ) (β := ℚ)) ∘ fun y =>
      (y, ((List.filter (fun r => r.date.year = y)
        (df.filter (fun r => r.company = c ∧ r.ticker = t))).map (fun r => r.dividend)).sum)) =
      fun y => ((List.filter (fun r => r.date.year = y)
        (df.filter (fun r => r.company = c ∧ r.ticker = t))).map (fun r => r.dividend)).sum :=
    rfl
  rw [hshape]
  refine sum_partition (fun (r : EventRow) => r.date.year) (fun (r : EventRow) => r.dividend) _ _
    (((List.perm_insertionSort _ _).nodup_iff).mpr (List.nodup_dedup _)) ?_
  intro b hb
  have hbm : b.date.year ∈ ((df.filter (fun r => r.company = c ∧ r.ticker = t)).map
      (fun r => r.date.year)).dedup :=
    List.mem_dedup.mpr (List.mem_map_of_mem _ hb)
  exact ((List.perm_insertionSort _ _).mem_iff).mpr hbm

theorem annualGroup_filter_company (df : List EventRow) (c t comp : String) :
    (annualGroup df c t).filter (fun r => r.company = comp) =
      if c = comp then annualGroup df c t else [] := by
  split
  · next h =>
    apply List.filter_eq_self.mpr
    intro r hr
    have := (attachYoY_mem_key c t none (annualBase df c t) r hr).1
    simp [this, h]
  · next h =>
    apply List.filter_eq_nil_iff.mpr
    intro r hr
    have := (attachYoY_mem_key c t none (annualBase df c t) r hr).1
    simp [this, h]

/-- Conservation of `annual_dividends` over an arbitrary event dataframe:
for every company, the per-year annual amounts sum to the total of the
company's events in the dataframe. -/
theorem annual_dividends_conserves (df : List EventRow) (comp : String) :
    (((annual_dividends df).filter (fun r => r.company = comp)).map
      (fun r => r.annualDividend)).sum =
    ((df.filter (fun r => r.company = comp)).map (fun r => r.dividend)).sum := by
  rw [annual_dividends, List.filter_flatMap, List.map_flatMap, sum_flatMap_eq]
  have step1 : ((keysOf df).map (fun k =>
      (((annualGroup df k.1 k.2).filter (fun r => r.company = comp)).map
        (fun r => r.annualDividend)).sum)).sum =
      ((keysOf df).map (fun k => if k.1 = comp then
        ((annualGroup df k.1 k.2).map (fun r => r.annualDividend)).sum else 0)).sum := by
    apply congrArg
    apply List.map_congr_left
    intro k _
    rw [annualGroup_filter_company]
    split <;> simp
  rw [step1, sum_map_ite ((keysOf df)) (fun k => k.1 = comp)]
  have step2 : (((keysOf df).filter (fun k => k.1 = comp)).map (fun k =>
      ((annualGroup df k.1 k.2).map (fun r => r.annualDividend)).sum)).sum =
      (((keysOf df).filter (fun k => k.1 = comp)).map (fun k =>
        ((df.filter (fun r => r.company = k.1 ∧ r.ticker = k.2)).map
          (fun r => r.dividend)).sum)).sum := by
    apply congrArg
    apply List.map_congr_left
    intro k _
    exact annualGroup_sum df k.1 k.2
  rw [step2]
  have step3 : (((keysOf df).filter (fun k => k.1 = comp)).map (fun k =>
      ((df.filter (fun r => r.company = k.1 ∧ r.ticker = k.2)).map
        (fun r => r.dividend)).sum)).sum =
      (((keysOf df).filter (fun k => k.1 = comp)).map (fun k =>
        (((df.filter (fun r => r.company = comp)).filter
          (fun r => (r.company, r.ticker) = k)).map (fun r => r.dividend)).sum)).sum := by
    apply congrArg
    apply List.map_congr_left
    intro k hk
    have hkc : k.1 = comp := by
      rw [List.mem_filter] at hk
      simpa using hk.2
    apply congrArg
    apply congrArg
    rw [List.filter_filter]
    apply List.filter_congr
    intro b _
    rcases k with ⟨kc, kt⟩
    simp only at hkc
    subst hkc
    by_cases h1 : b.company = kc <;> by_cases h2 : b.ticker = kt <;>
      simp [Prod.ext_iff, h1, h2]
  rw [step3]
  refine sum_partition (fun (r : EventRow) => (r.company, r.ticker))
    (fun (r : EventRow) => r.dividend) _ _ ?_ ?_
  · exact (List.nodup_dedup _).filter _
  · intro b hb
    rw [List.mem_filter] at hb
    rw [List.mem_filter]
    constructor
    · exact List.mem_dedup.mpr (List.mem_map_of_mem _ hb.1)
    · simpa using hb.2

theorem attachYoY_map_pair (c t : String) (prev : Option ℚ) (l : List (ℤ × ℚ)) :
    (attachYoY c t prev l).map (fun r => (r.company, r.year)) =
      l.map (fun p => (c, p.1)) := by
  induction l generalizing prev with
  | nil => rfl
  | cons p rest ih => obtain ⟨y, a⟩ := p; simp [attachYoY, ih]

theorem keysOf_build_functional (tickerOf : String → Option String)
    (fetchDiv : String → List (Date × ℚ)) (sel : List String) (startD endD : Date)
    (k : String × String)
    (hk : k ∈ keysOf (build_dividend_dataset tickerOf fetchDiv sel startD endD)) :
    tickerOf k.1 = some k.2 := by
  rw [keysOf, List.mem_dedup, List.mem_map] at hk
  obtain ⟨r, hr, rfl⟩ := hk
  exact (mem_build_dividend_dataset tickerOf fetchDiv sel startD endD r hr).1

/-- C7: over the pipeline's (filtered) event dataframe, the aggregated
table has at most one record per `(company, year)` pair, and for every
company the aggregated annual amounts sum to exactly the company's filtered
events (conservation). -/
theorem annual_unique_and_conserves (tickerOf : String → Option String)
    (fetchDiv : String → List (Date × ℚ)) (sel : List String) (startD endD : Date) :
    ((annual_dividends (build_dividend_dataset tickerOf fetchDiv sel startD endD)).map
      (fun r => (r.company, r.year))).Nodup ∧
    ∀ comp,
      (((annual_dividends (build_dividend_dataset tickerOf fetchDiv sel startD endD)).filter
        (fun r => r.company = comp)).map (fun r => r.annualDividend)).sum =
      (((build_dividend_dataset tickerOf fetchDiv sel startD endD).filter
        (fun r => r.company = comp)).map (fun r => r.dividend)).sum := by
  refine ⟨?_, fun comp => annual_dividends_conserves _ comp⟩
  rw [annual_dividends, List.map_flatMap]
  rw [List.nodup_flatMap]
  constructor
  · intro k _
    rw [annualGroup, attachYoY_map_pair]
    have hyears : ((annualBase (build_dividend_dataset tickerOf fetchDiv sel startD endD)
        k.1 k.2).map Prod.fst).Nodup :=
      (annualBase_fst_sorted _ k.1 k.2).nodup
    have hmm : (annualBase (build_dividend_dataset tickerOf fetchDiv sel startD endD)
        k.1 k.2).map (fun p => (k.1, p.1)) =
        ((annualBase (build_dividend_dataset tickerOf fetchDiv sel startD endD)
          k.1 k.2).map Prod.fst).map (fun y => (k.1, y)) := by
      rw [List.map_map]
      rfl
    rw [hmm]
    exact hyears.map (fun y1 y2 h => by simpa using (Prod.mk.injEq _ _ _ _).mp h |>.2)
  · have hnd : (keysOf (build_dividend_dataset tickerOf fetchDiv sel startD endD)).Nodup :=
      List.nodup_dedup _
    refine hnd.imp_of_mem ?_
    intro k k2 hk hk2 hne
    intro s hs1 hs2
    dsimp only at hs1 hs2
    rw [annualGroup, attachYoY_map_pair, List.mem_map] at hs1 hs2
    obtain ⟨p1, _, hp1⟩ := hs1
    obtain ⟨p2, _, hp2⟩ := hs2
    have hc : k.1 = k2.1 := by
      rw [← hp2] at hp1
      exact ((Prod.mk.injEq _ _ _ _).mp hp1).1
    have ht : k.2 = k2.2 := by
      have e1 := keysOf_build_functional tickerOf fetchDiv sel startD endD k hk
      have e2 := keysOf_build_functional tickerOf fetchDiv sel startD endD k2 hk2
      rw [hc] at e1
      rw [e1] at e2
      exact Option.some_injective _ e2
    exact hne (Prod.ext hc ht)

/-! ## C8: the CAGR extractor -/

theorem foldl_min_fst_eq (p : ℤ × ℚ) (l : List (ℤ × ℚ))
    (h : ∀ z ∈ l, p.1 ≤ z.1) : (l.map Prod.fst).foldl min p.1 = p.1 := by
  induction l generalizing p with
  | nil => rfl
  | cons q t ih =>
    rw [List.map_cons, List.foldl_cons]
    have hq : min p.1 q.1 = p.1 := min_eq_left (h q (List.mem_cons_self q t))
    rw [hq]
    exact ih p (fun z hz => h z (List.mem_cons_of_mem q hz))

theorem foldl_max_fst_eq (p : ℤ × ℚ) (l : List (ℤ × ℚ))
    (h : List.Sorted (fun a b => a.1 ≤ b.1) (p :: l)) :
    (l.map Prod.fst).foldl max p.1 = ((p :: l).getLast (List.cons_ne_nil p l)).1 := by
  induction l generalizing p with
  | nil => rfl
  | cons q t ih =>
    rw [List.map_cons, List.foldl_cons]
    have hpq : p.1 ≤ q.1 := (List.sorted_cons.mp h).1 q (List.mem_cons_self q t)
    rw [max_eq_right hpq, List.getLast_cons (List.cons_ne_nil q t)]
    exact ih q (List.sorted_cons.mp h).2

theorem find?_fst_getLast : ∀ (l : List (ℤ × ℚ)) (hne : l ≠ []),
    List.Pairwise (fun a b => a.1 < b.1) l →
    l.find? (fun p => p.1 = (l.getLast hne).1) = some (l.getLast hne)
  | [], hne, _ => absurd rfl hne
  | [x], _, _ => by simp
  | a :: b :: t, _, hp => by
    have hlast : ((a :: b :: t).getLast (List.cons_ne_nil _ _)) =
        ((b :: t).getLast (List.cons_ne_nil _ _)) := List.getLast_cons _
    have hmem : ((b :: t).getLast (List.cons_ne_nil _ _)) ∈ b :: t :=
      List.getLast_mem _
    have halt : a.1 < ((b :: t).getLast (List.cons_ne_nil _ _)).1 :=
      (List.pairwise_cons.mp hp).1 _ hmem
    rw [hlast]
    rw [List.find?_cons_of_neg _ (by simp; exact ne_of_lt halt)]
    exact find?_fst_getLast (b :: t) (List.cons_ne_nil _ _) (List.pairwise_cons.mp hp).2

/-- The CAGR rule as the specification's claim words it: take the earliest
and latest years with strictly positive annual amount; if fewer than two
qualifying years exist, or the elapsed year span is zero, CAGR is
undefined; otherwise `(last positive amount / first positive amount)`
raised to `1 / span`, minus 1. -/
def cagrSpec {α : Type} [LinearOrderedField α] (rpowFn : ℚ → ℤ → α)
    (g : List (ℤ × ℚ)) : Option α :=
  if (g.filter (fun p => 0 < p.2)).length < 2 then none
  else match (g.filter (fun p => 0 < p.2)).map Prod.fst with
  | [] => none
  | y :: ys =>
    if ys.foldl max y - ys.foldl min y = 0 then none
    else
      match (g.filter (fun p => 0 < p.2)).find? (fun p => p.1 = ys.foldl min y),
            (g.filter (fun p => 0 < p.2)).find? (fun p => p.1 = ys.foldl max y) with
      | some p0, some p1 => some (rpowFn (p1.2 / p0.2) (ys.foldl max y - ys.foldl min y) - 1)
      | _, _ => none

theorem cagrGroup_eq_cagrSpec {α : Type} [LinearOrderedField α] (rpowFn : ℚ → ℤ → α)
    (g : List (ℤ × ℚ)) (hsort : List.Pairwise (fun a b => a.1 < b.1) g) :
    cagrGroup rpowFn g = cagrSpec rpowFn g := by
  have hsorted : List.Sorted yearLE g := hsort.imp (fun h => le_of_lt h)
  rw [cagrGroup, cagrSpec, List.Sorted.insertionSort_eq hsorted]
  have hposP : List.Pairwise (fun a b => a.1 < b.1) (g.filter (fun p => 0 < p.2)) :=
    hsort.filter _
  have hallpos : ∀ p ∈ g.filter (fun p => 0 < p.2), 0 < p.2 := by
    intro p hp
    simpa using (List.mem_filter.mp hp).2
  rcases hpos : g.filter (fun p => 0 < p.2) with _ | ⟨p0, rest⟩
  · rw [hpos]
    simp
  · rcases rest with _ | ⟨p1, t⟩
    · rw [hpos]
      simp
    · rw [hpos] at hposP hallpos ⊢
      have hp0 : 0 < p0.2 := hallpos p0 (List.mem_cons_self _ _)
      have hmemlast : (p1 :: t).getLast (List.cons_ne_nil _ _) ∈ p1 :: t :=
        List.getLast_mem _
      have hlt : p0.1 < ((p1 :: t).getLast (List.cons_ne_nil _ _)).1 :=
        (List.pairwise_cons.mp hposP).1 _ hmemlast
      have hy0 : ((p1 :: t).map Prod.fst).foldl min p0.1 = p0.1 :=
        foldl_min_fst_eq p0 (p1 :: t)
          (fun z hz => le_of_lt ((List.pairwise_cons.mp hposP).1 z hz))
      have hy1 : ((p1 :: t).map Prod.fst).foldl max p0.1 =
          ((p0 :: p1 :: t).getLast (List.cons_ne_nil _ _)).1 :=
        foldl_max_fst_eq p0 (p1 :: t) (hposP.imp (fun h => le_of_lt h))
      have hlast : ((p0 :: p1 :: t).getLast (List.cons_ne_nil _ _)) =
          ((p1 :: t).getLast (List.cons_ne_nil _ _)) := List.getLast_cons _
      rw [hlast] at hy1
      simp only [List.map_cons] at hy0 hy1
      dsimp only [List.map_cons]
      rw [hy0, hy1]
      rw [if_neg (by simp only [List.length_cons]; omega : ¬ (p0 :: p1 :: t).length < 2)]
      rw [if_neg (by omega : ¬ ((p1 :: t).getLast (List.cons_ne_nil _ _)).1 - p0.1 = 0)]
      rw [if_neg (by
        push_neg
        exact ⟨by omega, hp0⟩ : ¬ (((p1 :: t).getLast (List.cons_ne_nil _ _)).1 - p0.1 ≤ 0 ∨
          p0.2 ≤ 0))]
      rw [List.find?_cons_of_pos _ (by simp)]
      have hfind := find?_fst_getLast (p0 :: p1 :: t) (List.cons_ne_nil _ _) hposP
      rw [hlast] at hfind
      rw [hfind]

theorem attachYoY_map_pairYA (c t : String) (prev : Option ℚ) (l : List (ℤ × ℚ)) :
    (attachYoY c t prev l).map (fun r => (r.year, r.annualDividend)) = l := by
  induction l generalizing prev with
  | nil => rfl
  | cons p rest ih => obtain ⟨y, a⟩ := p; simp [attachYoY, ih]

theorem flatMap_group_filter : ∀ (keys : List (String × String)), keys.Nodup →
    ∀ (F : String × String → List AnnualRow),
    (∀ k r, r ∈ F k → r.company = k.1 ∧ r.ticker = k.2) → ∀ (c t : String),
    (keys.flatMap (fun k => (F k).filter (fun a => a.company = c ∧ a.ticker = t))) =
      if (c, t) ∈ keys then F (c, t) else [] := by
  intro keys
  induction keys with
  | nil => intro _ F hF c t; simp
  | cons k ks ih =>
    intro hnd F hF c t
    rw [List.flatMap_cons]
    by_cases hk : k = (c, t)
    · subst hk
      have hself : (F (c, t)).filter (fun a => a.company = c ∧ a.ticker = t) = F (c, t) :=
        List.filter_eq_self.mpr (fun r hr => by
          obtain ⟨h1, h2⟩ := hF (c, t) r hr
          simp [h1, h2])
      rw [hself, if_pos (List.mem_cons_self _ _)]
      have hnotin : (c, t) ∉ ks := (List.nodup_cons.mp hnd).1
      rw [ih (List.nodup_cons.mp hnd).2 F hF c t, if_neg hnotin, List.append_nil]
    · have hnil : (F k).filter (fun a => a.company = c ∧ a.ticker = t) = [] :=
        List.filter_eq_nil_iff.mpr (fun r hr => by
          obtain ⟨h1, h2⟩ := hF k r hr
          simp only [h1, h2, decide_eq_true_eq, Bool.not_eq_true]
          rintro ⟨hc, ht⟩
          exact hk (Prod.ext hc ht))
      rw [hnil, List.nil_append, ih (List.nodup_cons.mp hnd).2 F hF c t]
      by_cases hm : (c, t) ∈ ks
      · rw [if_pos hm, if_pos (List.mem_cons_of_mem _ hm)]
      · rw [if_neg hm, if_neg (by
          rw [List.mem_cons]
          push_neg
          exact ⟨fun h => hk h.symm, hm⟩)]

theorem annual_filter_key (df : List EventRow) (c t : String) :
    (annual_dividends df).filter (fun a => a.company = c ∧ a.ticker = t) =
      if (c, t) ∈ keysOf df then annualGroup df c t else [] := by
  rw [annual_dividends, List.filter_flatMap]
  have := flatMap_group_filter (keysOf df) (List.nodup_dedup _)
    (fun k => annualGroup df k.1 k.2)
    (fun k r hr => attachYoY_mem_key k.1 k.2 none _ r hr) c t
  simpa using this

theorem annual_filter_pairs_sorted (df : List EventRow) (c t : String) :
    List.Pairwise (fun (a b : ℤ × ℚ) => a.1 < b.1)
      (((annual_dividends df).filter (fun a => a.company = c ∧ a.ticker = t)).map
        (fun a => (a.year, a.annualDividend))) := by
  rw [annual_filter_key]
  split
  · rw [annualGroup, attachYoY_map_pairYA]
    exact List.pairwise_map.mp (annualBase_fst_sorted df c t)
  · simp

/-- C8: the per-group CAGR computation agrees with the claim's rule — the
earliest and latest strictly-positive years, undefined when fewer than two
such years exist or the span is zero, otherwise
`(last/first) ** (1/span) - 1` — on every strictly year-sorted group, hence
on every row the pipeline's `cagr_metrics` produces from the aggregated
table; on the spec's scenario `{2021: 0.10, 2022: 0.12, 2023: 0.09}` it
yields `(0.09/0.10) ** (1/2) - 1`. -/
theorem cagr_matches_spec :
    (∀ (α : Type) [LinearOrderedField α] (rpowFn : ℚ → ℤ → α) (g : List (ℤ × ℚ)),
        List.Pairwise (fun a b => a.1 < b.1) g → cagrGroup rpowFn g = cagrSpec rpowFn g) ∧
    (∀ (α : Type) [LinearOrderedField α] (rpowFn : ℚ → ℤ → α) (df : List EventRow)
        (row : CagrRow α), row ∈ cagr_metrics rpowFn (annual_dividends df) →
        row.divCAGR = cagrSpec rpowFn (((annual_dividends df).filter
          (fun a => a.company = row.company ∧ a.ticker = row.ticker)).map
          (fun a => (a.year, a.annualDividend)))) ∧
    cagrGroup (fun q n => ((q : ℝ)) ^ (((n : ℤ) : ℝ))⁻¹)
      [(2021, 1/10), (2022, 12/100), (2023, 9/100)] =
      some (((9 : ℝ)/10) ^ ((2 : ℝ))⁻¹ - 1) := by
  refine ⟨fun α inst rpowFn g h => cagrGroup_eq_cagrSpec rpowFn g h, ?_, ?_⟩
  · intro α inst rpowFn df row hrow
    rw [cagr_metrics] at hrow
    obtain ⟨k, hk, rfl⟩ := List.mem_map.mp hrow
    exact cagrGroup_eq_cagrSpec rpowFn _ (annual_filter_pairs_sorted df k.1 k.2)
  · rw [cagrGroup]
    norm_num [yearLE, List.insertionSort, List.orderedInsert, List.filter, List.getLast]

theorem cagr_matches_spec_witness :
    cagrGroup (fun q n => ((q : ℝ)) ^ (((n : ℤ) : ℝ))⁻¹)
      [(2021, 1/10), (2022, 12/100), (2023, 9/100)] =
      cagrSpec (fun q n => ((q : ℝ)) ^ (((n : ℤ) : ℝ))⁻¹)
        [(2021, 1/10), (2022, 12/100), (2023, 9/100)] :=
  cagr_matches_spec.1 ℝ (fun q n => ((q : ℝ)) ^ (((n : ℤ) : ℝ))⁻¹)
    [(2021, 1/10), (2022, 12/100), (2023, 9/100)] (by norm_num)
